import Mathlib

/-!
Shallow embedding of the cltrigger engine of cue-lang/contrib-tools
(cmd/cueckoo/cmd/cltrigger.go): change-identifier resolution and the
concurrent trigger-dispatch coordinator, together with proofs of the
behavioural properties stated in the specification.

Modelling conventions:
* Strings are Lean `String`s; the Go standard-library string operations the
  code uses (strings.Split, strings.SplitN, strings.TrimSpace,
  strings.TrimPrefix, strings.Join, url.PathEscape) are re-implemented here
  over `List Char` so that they are structurally recursive and reduce inside
  the kernel. All strings handled by the engine are ASCII, where the
  byte-wise Go operations and the character-wise Lean ones agree.
* Fallible Go calls returning `(T, error)` become `Except String T`, the
  error being its message.
* The external collaborators (the git `run` helper, the Gerrit client, the
  builder callback, the --force flag) are abstracted as an explicit
  environment `Env`, one field per call site.
* Go maps (`in.Revisions`, `in.Labels`, the `seen` set) are modelled as
  association lists / membership lists; lookups use the first match, which
  agrees with Go maps whose keys are unique.
-/

set_option linter.dupNamespace false

/-! ### Go standard-library string primitives -/

/-- Splitting a character list at every occurrence of a separator character.
Mirrors Go strings.Split for a one-character separator: the empty input
yields one empty field, and n separators yield n+1 fields. -/
def chSplit (sep : Char) : List Char → List (List Char)
  | [] => [[]]
  | c :: cs =>
    match chSplit sep cs with
    | [] => [[]]
    | g :: gs => if c = sep then [] :: g :: gs else (c :: g) :: gs

/-- Go strings.Split(s, sep) for a one-character separator sep. -/
def strSplit (s : String) (sep : Char) : List String :=
  (chSplit sep s.data).map String.mk

/-- Removing leading whitespace from a character list. -/
def chTrimLeft : List Char → List Char
  | [] => []
  | c :: cs => if c.isWhitespace then chTrimLeft cs else c :: cs

/-- Go strings.TrimSpace: whitespace removed from both ends. -/
def strTrimSpace (s : String) : String :=
  String.mk (chTrimLeft (chTrimLeft s.data.reverse).reverse)

/-- Go strings.TrimPrefix(s, pre): s without the leading pre, or s unchanged
when pre is not a prefix of s. -/
def strTrimPre (s pre : String) : String :=
  if pre.data.isPrefixOf s.data then String.mk (s.data.drop pre.data.length) else s

/-- Go strings.Join(elems, sep) / strings.SplitN reassembly helper. -/
def chIntercalate (sep : List Char) : List (List Char) → List Char
  | [] => []
  | [x] => x
  | x :: xs => x ++ sep ++ chIntercalate sep xs

/-- Go strings.Join(elems, sep). -/
def strJoin (elems : List String) (sep : String) : String :=
  String.mk (chIntercalate sep.data (elems.map String.data))

/-- Go strings.SplitN(s, sep, 2) for a one-character separator: the text up
to the first separator, then the untouched remainder. When the separator
does not occur, the single-element list [s]. -/
def splitN2 (s : String) (sep : Char) : List String :=
  match chSplit sep s.data with
  | [] => [s]
  | [x] => [String.mk x]
  | x :: rest => [String.mk x, String.mk (chIntercalate [sep] rest)]

/-- Upper-case hexadecimal digit, as in the upperhex table of Go net/url. -/
def hexDigitUpper (n : Nat) : Char :=
  if n < 10 then Char.ofNat (48 + n) else Char.ofNat (65 + (n - 10))

/-- Decision table of Go net/url shouldEscape for mode encodePathSegment:
alphanumerics and the RFC 3986 unreserved marks pass through, and of the
reserved set only the dollar sign, ampersand, plus, colon, equals sign and
at sign stay literal; everything else (notably the slash, semicolon, comma
and question mark) is escaped. -/
def shouldEscapePathSegment (c : Char) : Bool :=
  if ('a' ≤ c ∧ c ≤ 'z') ∨ ('A' ≤ c ∧ c ≤ 'Z') ∨ ('0' ≤ c ∧ c ≤ '9') then false
  else if c = '-' ∨ c = '_' ∨ c = '.' ∨ c = '~' then false
  else if c = '$' ∨ c = '&' ∨ c = '+' ∨ c = ',' ∨ c = '/' ∨ c = ':' ∨
          c = ';' ∨ c = '=' ∨ c = '?' ∨ c = '@' then
    decide (c = '/' ∨ c = ';' ∨ c = ',' ∨ c = '?')
  else true

/-- Go net/url PathEscape: every character that shouldEscapePathSegment
selects is replaced by a percent sign and two upper-case hex digits of its
code. Faithful to the byte-wise Go loop on ASCII input, the only kind the
engine produces. -/
def pathEscape (s : String) : String :=
  String.mk (List.flatten (s.data.map fun c =>
    if shouldEscapePathSegment c then
      ['%', hexDigitUpper (c.toNat / 16 % 16), hexDigitUpper (c.toNat % 16)]
    else [c]))

/-- Go %q rendering of a string. The inputs quoted by the engine contain no
characters that %q would escape, so plain surrounding quotes are faithful. -/
def goQuote (s : String) : String := "\x22" ++ s ++ "\x22"

/-- Go %q rendering of a slice of strings, as fmt prints it: the quoted
elements, space separated, inside square brackets. -/
def goQuoteList (args : List String) : String :=
  "[" ++ strJoin (args.map goQuote) " " ++ "]"

/-! ### Data model (cltrigger.go) -/

/-- A parsed git commit: hash and message body (type commit). -/
structure commit where
  hash : String
  body : String
deriving Repr, DecidableEq

/-- A resolved (change, revision) target (type revision). changeID uniquely
identifies a CL; revision is a commit hash, the current patchset of the
change when empty. -/
structure revision where
  changeID : String
  revision : String
deriving Repr, DecidableEq

/-- A single recorded vote on a Gerrit label (gerrit.ApprovalInfo, field
Value). -/
structure ApprovalInfo where
  value : Int
deriving Repr, DecidableEq

/-- A Gerrit label with its recorded votes (gerrit.LabelInfo, field All). -/
structure LabelInfo where
  all : List ApprovalInfo
deriving Repr, DecidableEq

/-- One revision of a Gerrit change (gerrit.RevisionInfo): patchset number
and ref. -/
structure RevisionInfo where
  number : Int
  ref : String
deriving Repr, DecidableEq

/-- Gerrit change metadata as used by triggerBuild (gerrit.ChangeInfo with
the ALL_REVISIONS and LABELS options): change number, target branch, current
revision hash, the revisions map and the labels map. -/
structure ChangeInfo where
  number : Int
  branch : String
  currentRevision : String
  revisions : List (String × RevisionInfo)
  labels : List (String × LabelInfo)
deriving Repr, DecidableEq

/-- The payload handed to the builder callback (type
repositoryDispatchPayload); the first field is named Type in the Go struct,
a Lean keyword, and is filled in later by the builder itself, staying empty
here. -/
structure repositoryDispatchPayload where
  type : String := ""
  CL : Int := 0
  Patchset : Int := 0
  TargetBranch : String := ""
  Ref : String := ""
deriving Repr, DecidableEq

/-- Configuration fields of type config read by the engine. -/
structure config where
  githubOwner : String
  githubRepo : String
deriving Repr, DecidableEq

/-- Abstract environment collecting the external collaborators, one field
per call site of the engine:
* branchpoint — the output of the run helper on git codereview branchpoint;
* gitLog — the output of the run helper on git log -z --pretty=format:%H %B
  --no-patch with the given extra arguments;
* upstreamBranch — the output of the run helper on git rev-parse
  --abbrev-ref HEAD AT u; the engine ignores the error of that call, and the
  run helper returns the empty string on failure, so a plain string suffices;
* getChange — gerritClient.Changes.GetChange with options ALL_REVISIONS and
  LABELS, keyed by change ID;
* builder — the builder callback; some message models a delivery error,
  none success;
* force — the --force flag. -/
structure Env where
  branchpoint : Except String String
  gitLog : List String → Except String String
  upstreamBranch : String
  getChange : String → Except String ChangeInfo
  builder : repositoryDispatchPayload → Option String
  force : Bool

/-! ### Regular expressions of cltrigger.go, by their match semantics -/

/-- Test for the characters 1 to 9. -/
def isNonzeroDigit (c : Char) : Bool := decide ('1' ≤ c ∧ c ≤ '9')

/-- Test for the characters 0 to 9. -/
def isDecimalDigit (c : Char) : Bool := decide ('0' ≤ c ∧ c ≤ '9')

/-- Test for lower-case hexadecimal characters 0 to 9 and a to f. -/
def isLowerHex (c : Char) : Bool :=
  isDecimalDigit c || decide ('a' ≤ c ∧ c ≤ 'f')

/-- Match semantics of the first alternative of rxChangeID, which is
anchored only at the start of the string: a nonzero digit followed by at
least three further digits opens the string. -/
def matchesCLNumberStart : List Char → Bool
  | c0 :: c1 :: c2 :: c3 :: _ =>
    isNonzeroDigit c0 && isDecimalDigit c1 && isDecimalDigit c2 && isDecimalDigit c3
  | _ => false

/-- Match semantics of the second alternative of rxChangeID, which is
anchored only at the end of the string: the final 41 characters are the
letter I followed by exactly 40 lower-case hex digits. -/
def matchesTrailerIDEnd (cs : List Char) : Bool :=
  match cs.drop (cs.length - 41) with
  | 'I' :: hex => hex.length == 40 && hex.all isLowerHex
  | _ => false

/-- MatchString of rxChangeID. The alternation binds loosely, so the regex
is the union of its two one-sidedly anchored alternatives. -/
def rxChangeIDMatch (s : String) : Bool :=
  matchesCLNumberStart s.data || matchesTrailerIDEnd s.data

/-- Matches of changeIDRegex on a message under FindAllStringSubmatch. With
the multiline flag the anchors delimit newline-separated lines, the dot
does not cross a newline, and the greedy captured group therefore captures
the whole remainder of any line that opens with the literal trailer key.
The result lists the captured group of each matching line in order. -/
def changeIDMatches (msg : String) : List String :=
  (strSplit msg '\n').filterMap fun line =>
    if "Change-Id: ".data.isPrefixOf line.data then
      some (String.mk (line.data.drop "Change-Id: ".data.length))
    else none

/-- Function getChangeIDFromCommitMsg: exactly one match of changeIDRegex is
required; its captured group is returned. The second length test of the Go
code (the submatch slice having two entries) always holds for this regex,
the group being unconditional. -/
def getChangeIDFromCommitMsg (msg : String) : Except String String :=
  match changeIDMatches msg with
  | [m] => .ok m
  | _ => .error "failed to find Change-Id in commit message"

/-! ### resolveCommits -/

/-- Parsing of one NUL-separated blob of git log output: the hash up to the
first space, the remainder the body. Git log output of the used format
always contains the separating space; on a blob without one the Go code
would panic on the missing second slice entry, a case no modelled run
reaches and rendered here as an empty body. -/
def parseCommitBlob (blob : String) : commit :=
  let parts := splitN2 blob ' '
  { hash := parts.headD "", body := (parts.drop 1).headD "" }

/-- Function resolveCommits: runs git log -z over the given arguments, fails
on an empty output stream, otherwise splits the stream at NUL bytes and
parses each blob. Note that a successful result is never the empty list:
the empty stream is rejected, and any other stream splits into at least one
blob. -/
def resolveCommits (env : Env) (args : List String) : Except String (List commit) :=
  match env.gitLog args with
  | .error e => .error e
  | .ok commitStream =>
    if commitStream = "" then
      .error (goQuoteList args ++ " resulted in no git commits")
    else
      .ok ((strSplit commitStream '\x00').map parseCommitBlob)

/-! ### deriveChangeIDs -/

/-- The addRevision closure of deriveChangeIDs, applied to one pending
commit: extract the raw trailer identifier from the commit body; when the
upstream tracking branch of HEAD (trimmed and with an origin/ remote name
stripped) is non-empty, rewrite the identifier into the percent-escaped
compound form owner/repo~branch~identifier; emit the revision carrying the
pending commit hash. -/
def addRevision (cfg : config) (env : Env) (pc : commit) : Except String revision :=
  match getChangeIDFromCommitMsg pc.body with
  | .error e => .error ("failed to derive change ID: " ++ e)
  | .ok rawID =>
    let targetBranch := strTrimPre (strTrimSpace env.upstreamBranch) "origin/"
    let changeID :=
      if targetBranch ≠ "" then
        pathEscape (cfg.githubOwner ++ "/" ++ cfg.githubRepo ++ "~" ++
          targetBranch ++ "~" ++ rawID)
      else rawID
    .ok { changeID := changeID, revision := pc.hash }

/-- The verify-all loop of deriveChangeIDs: addRevision applied to every
pending commit in order, failing fast. -/
def addRevisionAll (cfg : config) (env : Env) : List commit → Except String (List revision)
  | [] => .ok []
  | pc :: rest =>
    match addRevision cfg env pc with
    | .error e => .error e
    | .ok r =>
      match addRevisionAll cfg env rest with
      | .error e => .error e
      | .ok rs => .ok (r :: rs)

/-- The per-argument loop of deriveChangeIDs (label EachArg): each argument
is resolved to exactly one commit via git log -1; arguments whose resolved
hash was already seen are skipped; an unseen hash must equal the hash of
some pending commit, for which addRevision then runs; otherwise the
argument is rejected. The accumulators carry the seen hashes and the
revisions emitted so far. -/
def resolveArgs (cfg : config) (env : Env) (pendingCommits : List commit) :
    List String → List String → List revision → Except String (List revision)
  | [], _, res => .ok res
  | h :: rest, seen, res =>
    match resolveCommits env ["-1", h] with
    | .error _ => .error ("failed to resolve revision " ++ goQuote h)
    | .ok commits =>
      match commits with
      | [c] =>
        if seen.contains c.hash then
          resolveArgs cfg env pendingCommits rest seen res
        else
          match pendingCommits.find? fun pc => c.hash = pc.hash with
          | some pc =>
            match addRevision cfg env pc with
            | .error e => .error e
            | .ok r => resolveArgs cfg env pendingCommits rest (c.hash :: seen) (res ++ [r])
          | none => .error ("commit " ++ h ++ " is not a pending commit")
      | _ => .error ("failed to resolve revision " ++ goQuote h)

/-- Function deriveChangeIDs: compute the branchpoint, list the pending
commits of the range branchpoint..HEAD, validate the argument shape, then
either emit one revision per pending commit (HEAD given, or no arguments
with a single pending commit) or resolve each argument against the pending
set with de-duplication by resolved hash. -/
def deriveChangeIDs (cfg : config) (env : Env) (args : List String) :
    Except String (List revision) :=
  match env.branchpoint with
  | .error e => .error e
  | .ok bp =>
    match resolveCommits env [strTrimSpace bp ++ "..HEAD"] with
    | .error e => .error e
    | .ok pendingCommits =>
      if pendingCommits.length = 0 then .error "no pending commits"
      else
        let argHead := args.contains "HEAD"
        if argHead ∧ args.length > 1 then
          .error "HEAD can only be supplied as an argument by itself"
        else if ¬argHead ∧ pendingCommits.length > 1 ∧ args.length = 0 then
          .error "must specify commits as arguments or use HEAD for everything"
        else if argHead ∨ (args.length = 0 ∧ pendingCommits.length = 1) then
          addRevisionAll cfg env pendingCommits
        else
          resolveArgs cfg env pendingCommits args [] []

/-! ### cltrigger.run -/

/-- The classification loop at the top of cltrigger.run: derive starts true;
an argument matching rxChangeID clears it; an argument failing the match
while derive is already cleared aborts with the mixing error. -/
def classifyArgs : List String → Bool → Except String Bool
  | [], derive => .ok derive
  | a :: rest, derive =>
    if rxChangeIDMatch a then classifyArgs rest false
    else if derive = false then .error "cannot mix change IDs and git refs"
    else classifyArgs rest derive

/-- The resolution phase of cltrigger.run, everything before the call to
triggerBuilds: classify the arguments; in derived mode call deriveChangeIDs;
in explicit mode require at least one argument and turn each argument into a
revision with empty hash. -/
def cltriggerResolve (cfg : config) (env : Env) (args : List String) :
    Except String (List revision) :=
  match classifyArgs args true with
  | .error e => .error e
  | .ok derive =>
    if derive then deriveChangeIDs cfg env args
    else if args.length = 0 then .error "must provide at least one change number of ID"
    else .ok (args.map fun a => { changeID := a, revision := "" })

/-! ### triggerBuild and the dispatch coordinator -/

/-- The vote scan of triggerBuild: the change carries a TryBot-Result label
with at least one recorded vote of value 1. -/
def hasTryBotResultApproval (labels : List (String × LabelInfo)) : Bool :=
  match labels.lookup "TryBot-Result" with
  | some tbResult => tbResult.all.any fun approval => approval.value = 1
  | none => false

/-- Method triggerBuild for one resolved revision: fetch the change
metadata; resolve the empty requested hash to the current revision; require
the resolved hash to be a known revision of the change; skip (ok none) when
the requested hash equals the current revision literally, force is off and
a TryBot-Result vote of 1 is recorded; otherwise build the payload and call
the builder, whose failure is the task error and whose success reports the
delivered payload (ok some). -/
def triggerBuild (env : Env) (rev : revision) :
    Except String (Option repositoryDispatchPayload) :=
  match env.getChange rev.changeID with
  | .error e => .error ("failed to get current revision information: " ++ e)
  | .ok info =>
    let commitHash := if rev.revision = "" then info.currentRevision else rev.revision
    match info.revisions.lookup commitHash with
    | none =>
      .error ("change " ++ goQuote rev.changeID ++ " does not know about revision " ++
        goQuote commitHash ++ "; did you forget to run git codereview mail?")
    | some revInfo =>
      if rev.revision = info.currentRevision ∧ env.force = false ∧
          hasTryBotResultApproval info.labels then
        .ok none
      else
        let payload : repositoryDispatchPayload :=
          { CL := info.number, Patchset := revInfo.number,
            TargetBranch := info.branch, Ref := revInfo.ref }
        match env.builder payload with
        | some e => .error e
        | none => .ok (some payload)

/-- The thread-safe error collector (type errorList), modelled by its list
of collected error messages; the mutex only serializes appends. -/
abbrev errorList := List String

/-- Method errorList.Add: a nil error pointer target leaves the collection
unchanged; a non-nil error is appended. -/
def errorList.Add (errs : errorList) (err : Option String) : errorList :=
  match err with
  | none => errs
  | some e => errs ++ [e]

/-- Method errorList.Err: nil exactly when the collection is empty,
otherwise the collector itself (carrying its message list). -/
def errorList.Err (errs : errorList) : Option (List String) :=
  match errs with
  | [] => none
  | _ => some errs

/-- The error of a task outcome, as stored into the deferred err variable of
the goroutine of triggerBuilds. -/
def taskErr : Except String (Option repositoryDispatchPayload) → Option String
  | .error e => some e
  | .ok _ => none

/-! The aggregate error of triggerBuilds is fmt.Errorf applied to the
joined messages with NO operands, so Go interprets any percent verb inside
the joined text (for example the %2F of a percent-escaped derived change
ID) instead of copying it. The next definitions model the doPrintf scan of
Go fmt for the zero-operand case, character for character: the fast path
and every operand-consuming branch are dead with an empty operand list, a
bracketed argument index always poisons the verb (BADINDEX), a star width
or precision reports BADWIDTH or BADPREC, a verb beyond the end reports
NOVERB and stops the scan, a double percent emits one percent, and every
remaining verb reports MISSING. Go scans flag, digit and bracket bytes and
then decodes one verb rune; on the ASCII format strings this engine joins,
the character-level scan below coincides with the byte-level one. -/

/-- Flag characters of a Go fmt conversion (the simpleFormat loop). -/
def goFmtFlag (c : Char) : Bool :=
  c = '#' || c = '0' || c = '+' || c = '-' || c = ' '

/-- parsenum of Go fmt: consumes leading decimal digits, reporting whether
at least one digit was seen; when the accumulated value passes one million
(tooLarge) the scan aborts to the end of the format. -/
def goParsenum : Nat → Bool → List Char → Bool × List Char
  | _, isnum, [] => (isnum, [])
  | num, isnum, c :: cs =>
    if isDecimalDigit c then
      if num > 1000000 then (false, [])
      else goParsenum (num * 10 + (c.toNat - 48)) true cs
    else (isnum, c :: cs)

/-- parseArgNumber of Go fmt on a segment starting at the opening bracket:
the number of characters consumed and whether a well-formed decimal index
was read before the first closing bracket. -/
def goParseArgNumber (cs : List Char) : Nat × Bool :=
  if cs.length < 3 then (1, false)
  else
    match (cs.drop 1).findIdx? (fun c => c = ']') with
    | none => (1, false)
    | some j =>
      match goParsenum 0 false ((cs.drop 1).take j) with
      | (true, []) => (j + 2, true)
      | _ => (j + 2, false)

/-- argNumber of Go fmt with no operands: a bracketed argument index is
consumed when present and always clears goodArgNum, no operand being in
range. Returns the rest of the format, whether a bracket was seen, and the
afterIndex flag (a well-formed index). -/
def goArgNumber : List Char → List Char × Bool × Bool
  | '[' :: tail =>
    match goParseArgNumber ('[' :: tail) with
    | (wid, ok) => (('[' :: tail).drop wid, true, ok)
  | cs => (cs, false, false)

/-- Processing of one conversion of a zero-operand Go fmt call, after the
percent sign: flags, argument index, width, precision, the gated second
argument index, then the verb. Returns the rendered chunk, the remaining
format, and whether the NOVERB case stops the whole scan. -/
def goVerbNoArgs (cs0 : List Char) : List Char × List Char × Bool :=
  let cs1 := cs0.dropWhile goFmtFlag
  match goArgNumber cs1 with
  | (cs2, saw1, after1) =>
    let (chunkW, cs3, after2) :=
      match cs2 with
      | '*' :: rest => ("%!(BADWIDTH)".data, rest, false)
      | other => (([] : List Char), (goParsenum 0 false other).2, after1)
    let (chunkP, cs4, sawP, afterP) :=
      match cs3 with
      | '.' :: rest =>
        match goArgNumber rest with
        | (restA, sawA, afterA) =>
          match restA with
          | '*' :: r2 => ("%!(BADPREC)".data, r2, sawA, false)
          | other => (([] : List Char), (goParsenum 0 false other).2, sawA, afterA)
      | other => (([] : List Char), other, false, after2)
    let (cs5, saw3) :=
      if afterP then (cs4, false)
      else
        match goArgNumber cs4 with
        | (c5, s3, _) => (c5, s3)
    let good := !(saw1 || sawP || saw3)
    match cs5 with
    | [] => (chunkW ++ chunkP ++ "%!(NOVERB)".data, ([] : List Char), true)
    | v :: rest =>
      if v = '%' then (chunkW ++ chunkP ++ ['%'], rest, false)
      else if good then
        (chunkW ++ chunkP ++ "%!".data ++ [v] ++ "(MISSING)".data, rest, false)
      else
        (chunkW ++ chunkP ++ "%!".data ++ [v] ++ "(BADINDEX)".data, rest, false)

/-- The doPrintf loop of Go fmt with no operands: literal text is copied
and each conversion is rendered by goVerbNoArgs. The fuel argument only
bounds the recursion for the termination checker; every step consumes at
least one character, so a call with fuel equal to the format length never
exhausts it. -/
def goFmtLoop : Nat → List Char → List Char
  | 0, _ => []
  | _ + 1, [] => []
  | fuel + 1, c :: cs =>
    if c = '%' then
      match goVerbNoArgs cs with
      | (chunk, rest, stop) =>
        if stop then chunk else chunk ++ goFmtLoop fuel rest
    else c :: goFmtLoop fuel cs

/-- fmt.Errorf applied to one string and no operands, as the aggregate of
triggerBuilds does: the message is the doPrintf rendering of the string. -/
def goFmtNoArgs (format : String) : String :=
  String.mk (goFmtLoop format.data.length format.data)

/-- Method triggerBuilds: the concurrent fan-out, modelled sequentially.
One task runs per revision; the tasks share only the error collector, so
processing them in submission order is one linearization of the concurrent
execution, fixing the otherwise unspecified order of the collected
messages. recoverError is not modelled, no modelled task panicking. The
first component lists the payloads delivered by the successful tasks; the
second is the aggregate error: when the collector is non-empty, fmt.Errorf
applied with no operands to the newline-join of its messages — which
mangles any percent verb occurring inside a message — otherwise none. -/
def triggerBuilds (env : Env) (revs : List revision) :
    List repositoryDispatchPayload × Option String :=
  let outcomes := revs.map (triggerBuild env)
  let errs := outcomes.foldl (fun acc o => errorList.Add acc (taskErr o)) ([] : errorList)
  let delivered := outcomes.filterMap fun o =>
    match o with
    | .ok (some p) => some p
    | _ => none
  (delivered, if errs.length > 0 then some (goFmtNoArgs (strJoin errs "\n")) else none)

/-- Method cltrigger.run in full: resolution followed by dispatch; a
successful run reports the delivered payloads. -/
def cltriggerRun (cfg : config) (env : Env) (args : List String) :
    Except String (List repositoryDispatchPayload) :=
  match cltriggerResolve cfg env args with
  | .error e => .error e
  | .ok revs =>
    match triggerBuilds env revs with
    | (delivered, none) => .ok delivered
    | (_, some e) => .error e

/-! ### Shared proof infrastructure -/

/-- Decidable equality of Except values with decidable components. -/
instance {ε α : Type} [DecidableEq ε] [DecidableEq α] : DecidableEq (Except ε α) :=
  fun a b =>
    match a, b with
    | .ok x, .ok y =>
      if h : x = y then .isTrue (by rw [h]) else .isFalse (by simp [h])
    | .error x, .error y =>
      if h : x = y then .isTrue (by rw [h]) else .isFalse (by simp [h])
    | .ok _, .error _ => .isFalse (by simp)
    | .error _, .ok _ => .isFalse (by simp)

/-- A baseline concrete environment whose collaborators all fail or return
nothing; scenarios override single fields. -/
def env0 : Env :=
  { branchpoint := .error "no branchpoint"
    gitLog := fun _ => .error "no git"
    upstreamBranch := ""
    getChange := fun _ => .error "no gerrit"
    builder := fun _ => none
    force := false }

/-- Change metadata for the trigger-policy scenarios: current revision abc,
one known revision, and a TryBot-Result label carrying one vote of 1. -/
def c1meta : ChangeInfo :=
  { number := 551352
    branch := "master"
    currentRevision := "abc"
    revisions := [("abc", { number := 7, ref := "refs/changes/52/551352/7" })]
    labels := [("TryBot-Result", { all := [{ value := 1 }] })] }

/-- Environment for the trigger-policy scenarios: the Gerrit client knows
the change ch with metadata c1meta, the builder succeeds, force is off. -/
def c1env : Env :=
  { env0 with getChange := fun id => if id = "ch" then .ok c1meta else .error "not found" }

/-- Environment for the single-commit witness: one pending commit h1 with a
single trailer line. -/
def c7env : Env :=
  { env0 with
    branchpoint := .ok "bp\n"
    gitLog := fun args =>
      if args = ["bp..HEAD"] then .ok "h1 subject\n\nChange-Id: Iaaa"
      else .error "unused" }

/-- Environment for the de-duplication witness: two pending commits; the
references ref1 and ref2 both resolve to the pending commit h1. -/
def c6env : Env :=
  { env0 with
    branchpoint := .ok "bp"
    gitLog := fun args =>
      if args = ["bp..HEAD"] then
        .ok "h1 subject\n\nChange-Id: Iaaa\x00h2 other\n\nChange-Id: Ibbb"
      else if args = ["-1", "ref1"] then .ok "h1 subject\n\nChange-Id: Iaaa"
      else if args = ["-1", "ref2"] then .ok "h1 subject\n\nChange-Id: Iaaa"
      else .error "unused" }

/-- C5: identifier extraction from a commit message body succeeds and
returns the captured identifier exactly when the body contains exactly one
line matching the Change-Id trailer regex; with zero or several matching
lines it fails with the fixed extraction error (wrapped by the caller into
the failed-to-derive validation error). -/
theorem trailer_extraction_exactly_one (msg : String) :
    (∀ id, getChangeIDFromCommitMsg msg = .ok id ↔ changeIDMatches msg = [id]) ∧
    ((changeIDMatches msg).length ≠ 1 →
      getChangeIDFromCommitMsg msg =
        .error "failed to find Change-Id in commit message") := by
  constructor
  · intro id
    unfold getChangeIDFromCommitMsg
    cases h : changeIDMatches msg with
    | nil => simp
    | cons a t =>
      cases t with
      | nil => simp
      | cons b t2 => simp
  · intro hne
    unfold getChangeIDFromCommitMsg
    cases h : changeIDMatches msg with
    | nil => simp
    | cons a t =>
      cases t with
      | nil => exact absurd (by simp [h]) hne
      | cons b t2 => simp

/-- Witness for C5: a body with a single trailer line succeeds with its
identifier, and a body with two trailer lines fails. -/
theorem trailer_extraction_exactly_one_witness :
    getChangeIDFromCommitMsg "subject\n\nChange-Id: Iaaa" = .ok "Iaaa" ∧
    getChangeIDFromCommitMsg "subject\n\nChange-Id: Iaaa\nChange-Id: Ibbb" =
      .error "failed to find Change-Id in commit message" :=
  ⟨((trailer_extraction_exactly_one "subject\n\nChange-Id: Iaaa").1 "Iaaa").mpr (by decide),
   (trailer_extraction_exactly_one "subject\n\nChange-Id: Iaaa\nChange-Id: Ibbb").2 (by decide)⟩

/-! ### C4 — compound-identifier construction -/

/-- C4: for a pending commit whose body yields the raw identifier, a
non-empty upstream tracking branch (after trimming and dropping the origin/
remote name) makes addRevision emit the percent-escaped compound form
owner/repo~branch~identifier, while an empty upstream branch passes the raw
identifier through unchanged; the revision hash is the pending commit hash
either way. -/
theorem compound_identifier_construction (cfg : config) (env : Env) (pc : commit)
    (rawID : String) (hid : getChangeIDFromCommitMsg pc.body = .ok rawID) :
    (strTrimPre (strTrimSpace env.upstreamBranch) "origin/" ≠ "" →
      addRevision cfg env pc = .ok
        { changeID := pathEscape (cfg.githubOwner ++ "/" ++ cfg.githubRepo ++ "~" ++
            strTrimPre (strTrimSpace env.upstreamBranch) "origin/" ++ "~" ++ rawID),
          revision := pc.hash }) ∧
    (strTrimPre (strTrimSpace env.upstreamBranch) "origin/" = "" →
      addRevision cfg env pc = .ok { changeID := rawID, revision := pc.hash }) := by
  unfold addRevision
  rw [hid]
  constructor
  · intro hb
    simp only [if_pos hb]
  · intro hb
    simp only [hb, ne_eq, not_true_eq_false, if_false, ite_false]

/-- Witness for C4: with upstream origin/main, owner o and repo r, the raw
identifier I1234 becomes o%2Fr~main~I1234; with no upstream branch it stays
I1234. -/
theorem compound_identifier_construction_witness :
    addRevision ⟨"o", "r"⟩ { env0 with upstreamBranch := "origin/main\n" }
        ⟨"h1", "Change-Id: I1234"⟩ =
      .ok { changeID := "o%2Fr~main~I1234", revision := "h1" } ∧
    addRevision ⟨"o", "r"⟩ env0 ⟨"h1", "Change-Id: I1234"⟩ =
      .ok { changeID := "I1234", revision := "h1" } := by
  constructor
  · have h := (compound_identifier_construction ⟨"o", "r"⟩
      { env0 with upstreamBranch := "origin/main\n" }
      ⟨"h1", "Change-Id: I1234"⟩ "I1234" rfl).1 (by decide)
    rw [h]
    decide
  · have h := (compound_identifier_construction ⟨"o", "r"⟩ env0
      ⟨"h1", "Change-Id: I1234"⟩ "I1234" rfl).2 (by decide)
    rw [h]

/-! ### C1 — trigger policy -/

/-- The builder branch of triggerBuild never produces the skip outcome. -/
theorem builderResult_ne_ok_none (env : Env) (p : repositoryDispatchPayload) :
    (match env.builder p with
     | some e => Except.error e
     | none => Except.ok (some p)) ≠ (.ok none : Except String (Option repositoryDispatchPayload)) := by
  cases env.builder p <;> simp

/-- Counterexample to C1 as stated: the requested hash is empty (hence
resolves to the current revision abc), force is off, and a TryBot-Result
vote of 1 is recorded, so the claim predicts a skipped trigger; but
triggerBuild compares the raw requested hash with the current revision
hash, finds the empty string different from abc, and sends the trigger. -/
theorem trigger_policy_claim_counterexample :
    c1env.force = false ∧
    hasTryBotResultApproval c1meta.labels = true ∧
    c1meta.currentRevision ≠ "" ∧
    triggerBuild c1env { changeID := "ch", revision := "" } =
      .ok (some { CL := 551352, Patchset := 7, TargetBranch := "master",
                  Ref := "refs/changes/52/551352/7" }) ∧
    triggerBuild c1env { changeID := "ch", revision := "" } ≠ .ok none :=
  ⟨rfl, by decide, by decide, by decide, by decide⟩

/-- C1 amended: when the metadata fetch succeeds and the resolved hash is a
known revision of the change, the trigger is skipped exactly when force is
off, the requested hash equals the current revision hash literally (an
empty requested hash does not qualify even though it resolves to the
current revision), and the TryBot-Result label carries a vote of value 1;
in every other combination the trigger is sent. -/
theorem trigger_policy_skip_iff (env : Env) (rev : revision) (info : ChangeInfo)
    (ri : RevisionInfo)
    (hget : env.getChange rev.changeID = .ok info)
    (hlook : info.revisions.lookup
      (if rev.revision = "" then info.currentRevision else rev.revision) = some ri) :
    triggerBuild env rev = .ok none ↔
      (rev.revision = info.currentRevision ∧ env.force = false ∧
        hasTryBotResultApproval info.labels = true) := by
  simp only [triggerBuild, hget, hlook]
  by_cases hc : (rev.revision = info.currentRevision ∧ env.force = false ∧
      hasTryBotResultApproval info.labels = true)
  · rw [if_pos hc]
    simp [hc]
  · rw [if_neg hc]
    constructor
    · intro h
      exact absurd h (builderResult_ne_ok_none env _)
    · intro h
      exact absurd h hc

/-- Witness for the amended C1: requesting the current revision hash abc
itself, with force off and the vote recorded, skips the trigger. -/
theorem trigger_policy_skip_iff_witness :
    triggerBuild c1env { changeID := "ch", revision := "abc" } = .ok none :=
  (trigger_policy_skip_iff c1env { changeID := "ch", revision := "abc" } c1meta
      { number := 7, ref := "refs/changes/52/551352/7" } rfl (by decide)).mpr (by decide)

/-! ### C9 — error-collector semantics -/

/-- Folding errorList.Add over task outcomes appends exactly the non-nil
task errors, in order, to the initial contents. -/
theorem foldl_errorListAdd_eq (l : List (Except String (Option repositoryDispatchPayload)))
    (acc : errorList) :
    l.foldl (fun a o => errorList.Add a (taskErr o)) acc = acc ++ l.filterMap taskErr := by
  induction l generalizing acc with
  | nil => simp
  | cons o t ih =>
    rw [List.foldl_cons, ih]
    cases ho : taskErr o with
    | none => simp [errorList.Add, ho, List.filterMap_cons]
    | some e => simp [errorList.Add, ho, List.filterMap_cons]

/-- C9: errorList.Add with a nil error leaves the collection unchanged;
errorList.Err is nil exactly on the empty collection; and the coordinator
reports an aggregate failure exactly when at least one per-revision task
produced a non-nil error — successful and skipped tasks contribute
nothing. -/
theorem error_collector_semantics (errs : errorList) (env : Env) (revs : List revision) :
    errorList.Add errs none = errs ∧
    (errorList.Err errs = none ↔ errs = []) ∧
    ((triggerBuilds env revs).2 ≠ none ↔
      ∃ rev ∈ revs, taskErr (triggerBuild env rev) ≠ none) := by
  refine ⟨rfl, ?_, ?_⟩
  · cases errs <;> simp [errorList.Err]
  · unfold triggerBuilds
    simp only [foldl_errorListAdd_eq, List.nil_append]
    have key : ∀ (L : List String) (j : String),
        ((if L.length > 0 then some j else none) ≠ none ↔ L ≠ []) := by
      intro L j
      cases L <;> simp
    rw [key]
    rw [ne_eq, List.filterMap_eq_nil_iff]
    push_neg
    constructor
    · rintro ⟨a, ha, hne⟩
      obtain ⟨r, hr, rfl⟩ := List.mem_map.mp ha
      exact ⟨r, hr, hne⟩
    · rintro ⟨r, hr, hne⟩
      exact ⟨triggerBuild env r, List.mem_map_of_mem _ hr, hne⟩

/-! ### C2 — fan-out isolation and aggregation -/

/-- Once the derive flag is cleared it can never come back: the
classification loop only ever clears it or fails. -/
theorem classifyArgs_false_stays (t : List String) : classifyArgs t false ≠ .ok true := by
  induction t with
  | nil => simp [classifyArgs]
  | cons a t ih =>
    by_cases hm : rxChangeIDMatch a
    · simpa [classifyArgs, hm] using ih
    · simp [classifyArgs, hm]

/-- An argument list containing a regex-matching argument can never leave
the classification loop with the derive flag still set. -/
theorem classifyArgs_never_true (args : List String)
    (h : ∃ a ∈ args, rxChangeIDMatch a = true) :
    ∀ d, classifyArgs args d ≠ .ok true := by
  induction args with
  | nil => simp at h
  | cons a t ih =>
    intro d
    by_cases hm : rxChangeIDMatch a
    · simp only [classifyArgs, hm, if_true]
      exact classifyArgs_false_stays t
    · have ht : ∃ b ∈ t, rxChangeIDMatch b = true := by
        rcases h with ⟨b, hb, hmb⟩
        rcases List.mem_cons.mp hb with rfl | hbt
        · exact absurd hmb (by simpa using hm)
        · exact ⟨b, hbt, hmb⟩
      cases d with
      | false => simp [classifyArgs, hm]
      | true => simpa [classifyArgs, hm] using ih ht true

/-- C10: because the first alternative of rxChangeID is anchored only at
the start and the second only at the end, any argument opening with a
nonzero digit and three further digits matches and is classified as an
explicit change identifier; an argument list containing such an argument
never reaches derived-mode resolution (the result is independent of the
whole git environment), and when classification succeeds all arguments are
forwarded as change identifiers; a non-matching argument triggers the
mixing error only after a matching one, not before. -/
theorem mode_inference_edge (cfg : config) (env env2 : Env) :
    (∀ (c0 c1 c2 c3 : Char) (rest : List Char),
        isNonzeroDigit c0 = true → isDecimalDigit c1 = true →
        isDecimalDigit c2 = true → isDecimalDigit c3 = true →
        rxChangeIDMatch (String.mk (c0 :: c1 :: c2 :: c3 :: rest)) = true) ∧
    (∀ args : List String, (∃ a ∈ args, rxChangeIDMatch a = true) →
        cltriggerResolve cfg env args = cltriggerResolve cfg env2 args) ∧
    (∀ args : List String, (∃ a ∈ args, rxChangeIDMatch a = true) →
        classifyArgs args true = .ok false →
        cltriggerResolve cfg env args =
          .ok (args.map fun a => { changeID := a, revision := "" })) ∧
    (∀ x y : String, rxChangeIDMatch x = false → rxChangeIDMatch y = true →
        cltriggerResolve cfg env [x, y] =
          .ok [{ changeID := x, revision := "" }, { changeID := y, revision := "" }] ∧
        cltriggerResolve cfg env [y, x] = .error "cannot mix change IDs and git refs") := by
  refine ⟨?_, ?_, ?_, ?_⟩
  · intro c0 c1 c2 c3 rest h0 h1 h2 h3
    simp [rxChangeIDMatch, matchesCLNumberStart, h0, h1, h2, h3]
  · intro args hex
    cases hc : classifyArgs args true with
    | error e => simp [cltriggerResolve, hc]
    | ok d =>
      cases d with
      | true => exact absurd hc (classifyArgs_never_true args hex true)
      | false => simp [cltriggerResolve, hc]
  · intro args hex hok
    have hne : args ≠ [] := by
      rintro rfl
      simp at hex
    simp only [cltriggerResolve, hok]
    rw [if_neg (by simp), if_neg (by simpa [List.length_eq_zero] using hne)]
  · intro x y hx hy
    constructor
    · simp [cltriggerResolve, classifyArgs, hx, hy]
    · simp [cltriggerResolve, classifyArgs, hx, hy]

/-- Witness for C10: a 40-character string opening with four digits matches
the regex; the list with the non-matching argument first succeeds in
explicit mode with both arguments forwarded; with the matching argument
first the second argument is rejected as mixing. -/
theorem mode_inference_edge_witness :
    rxChangeIDMatch (String.mk ('1' :: '2' :: '3' :: '4' :: List.replicate 36 'a')) = true ∧
    cltriggerResolve ⟨"o", "r"⟩ env0 ["foo", "12345"] =
      .ok [{ changeID := "foo", revision := "" }, { changeID := "12345", revision := "" }] ∧
    cltriggerResolve ⟨"o", "r"⟩ env0 ["12345", "foo"] =
      .error "cannot mix change IDs and git refs" := by
  refine ⟨?_, ?_, ?_⟩
  · exact (mode_inference_edge ⟨"o", "r"⟩ env0 env0).1 '1' '2' '3' '4'
      (List.replicate 36 'a') (by decide) (by decide) (by decide) (by decide)
  · exact ((mode_inference_edge ⟨"o", "r"⟩ env0 env0).2.2.2 "foo" "12345"
      (by decide) (by decide)).1
  · exact ((mode_inference_edge ⟨"o", "r"⟩ env0 env0).2.2.2 "foo" "12345"
      (by decide) (by decide)).2

/-! ### C8 — empty pending set -/

/-- Splitting never yields an empty list of fields. -/
theorem chSplit_ne_nil (sep : Char) (cs : List Char) : chSplit sep cs ≠ [] := by
  cases cs with
  | nil => simp [chSplit]
  | cons c cs =>
    unfold chSplit
    cases h : chSplit sep cs with
    | nil => simp
    | cons g gs => by_cases hc : c = sep <;> simp [hc]

/-- Counterexample to C8 as stated: with an empty pending range (git log
output empty), resolution does fail before anything else happens, but with
the resulted-in-no-git-commits error from resolveCommits, not with the
no-pending-commits error the claim names; that branch is unreachable. -/
theorem empty_pending_set_counterexample :
    deriveChangeIDs ⟨"o", "r"⟩
        { env0 with branchpoint := .ok "bp"
                    gitLog := fun args => if args = ["bp..HEAD"] then .ok "" else .error "unused" }
        [] =
      .error "[\x22bp..HEAD\x22] resulted in no git commits" ∧
    deriveChangeIDs ⟨"o", "r"⟩
        { env0 with branchpoint := .ok "bp"
                    gitLog := fun args => if args = ["bp..HEAD"] then .ok "" else .error "unused" }
        [] ≠ .error "no pending commits" :=
  ⟨by decide, by decide⟩

/-- C8 amended: when the pending range produces an empty git log stream,
derived-mode resolution fails immediately — before any revision is emitted
and before any call to the review system — but with the
resulted-in-no-git-commits error of the commit-listing step; the
no-pending-commits branch of deriveChangeIDs is unreachable, because
resolveCommits never returns an empty commit list. -/
theorem empty_pending_set_error (cfg : config) (env : Env) (args : List String)
    (bp : String)
    (hbp : env.branchpoint = .ok bp)
    (hlog : env.gitLog [strTrimSpace bp ++ "..HEAD"] = .ok "") :
    deriveChangeIDs cfg env args =
      .error (goQuoteList [strTrimSpace bp ++ "..HEAD"] ++ " resulted in no git commits") ∧
    ∀ (largs : List String) (cs : List commit),
      resolveCommits env largs = .ok cs → cs ≠ [] := by
  constructor
  · simp [deriveChangeIDs, resolveCommits, hbp, hlog]
  · intro largs cs hres
    unfold resolveCommits at hres
    cases hg : env.gitLog largs with
    | error e =>
      rw [hg] at hres
      exact absurd hres (by simp)
    | ok stream =>
      rw [hg] at hres
      dsimp only at hres
      by_cases hs : stream = ""
      · rw [if_pos hs] at hres
        exact absurd hres (by simp)
      · rw [if_neg hs] at hres
        have : (strSplit stream '\x00').map parseCommitBlob = cs := by
          simpa using hres
        rw [← this]
        simp only [ne_eq, List.map_eq_nil_iff, strSplit, List.map_eq_nil_iff]
        exact chSplit_ne_nil _ _
  
/-- Witness for the amended C8: a concrete environment with an empty
pending range fails with the concrete resulted-in-no-git-commits error. -/
theorem empty_pending_set_error_witness :
    deriveChangeIDs ⟨"o", "r"⟩
        { env0 with branchpoint := .ok "bp"
                    gitLog := fun args => if args = ["bp..HEAD"] then .ok "" else .error "unused" }
        ["HEAD"] =
      .error "[\x22bp..HEAD\x22] resulted in no git commits" := by
  have h := (empty_pending_set_error ⟨"o", "r"⟩
    { env0 with branchpoint := .ok "bp"
                gitLog := fun args => if args = ["bp..HEAD"] then .ok "" else .error "unused" }
    ["HEAD"] "bp" rfl (by decide)).1
  rw [h]
  decide

/-! ### C7 — single-commit shortcut -/

/-- C7: with exactly one pending commit, a derived-mode invocation with no
arguments takes the same verify-all branch as the invocation with HEAD as
sole argument and produces the identical result; on success it yields
exactly the one revision built from that pending commit. -/
theorem single_commit_shortcut (cfg : config) (env : Env) (bp : String) (pc : commit)
    (hbp : env.branchpoint = .ok bp)
    (hlog : resolveCommits env [strTrimSpace bp ++ "..HEAD"] = .ok [pc]) :
    deriveChangeIDs cfg env [] = deriveChangeIDs cfg env ["HEAD"] ∧
    ∀ r, addRevision cfg env pc = .ok r → deriveChangeIDs cfg env [] = .ok [r] := by
  constructor
  · simp [deriveChangeIDs, hbp, hlog, addRevisionAll]
  · intro r hr
    simp [deriveChangeIDs, hbp, hlog, addRevisionAll, hr]

/-- Witness for C7: the no-argument invocation equals the HEAD invocation
and yields exactly one revision. -/
theorem single_commit_shortcut_witness :
    deriveChangeIDs ⟨"o", "r"⟩ c7env [] = deriveChangeIDs ⟨"o", "r"⟩ c7env ["HEAD"] ∧
    deriveChangeIDs ⟨"o", "r"⟩ c7env [] = .ok [{ changeID := "Iaaa", revision := "h1" }] :=
  ⟨(single_commit_shortcut ⟨"o", "r"⟩ c7env "bp\n" ⟨"h1", "subject\n\nChange-Id: Iaaa"⟩
      rfl (by decide)).1,
   (single_commit_shortcut ⟨"o", "r"⟩ c7env "bp\n" ⟨"h1", "subject\n\nChange-Id: Iaaa"⟩
      rfl (by decide)).2 { changeID := "Iaaa", revision := "h1" } (by decide)⟩

/-! ### C6 — derived-mode de-duplication -/

/-- C6: two arguments resolving to the same commit hash (in particular the
same argument twice) yield the same result as passing the first argument
alone — the second is skipped by the seen-hash set before matching against
the pending set — and a successful resolution yields exactly one revision
for that commit. -/
theorem derived_dedup (cfg : config) (env : Env) (r1 r2 : String) (c1 c2 : commit)
    (h1 : resolveCommits env ["-1", r1] = .ok [c1])
    (h2 : resolveCommits env ["-1", r2] = .ok [c2])
    (hh : c2.hash = c1.hash)
    (hn1 : r1 ≠ "HEAD") (hn2 : r2 ≠ "HEAD") :
    deriveChangeIDs cfg env [r1, r2] = deriveChangeIDs cfg env [r1] ∧
    ∀ res, deriveChangeIDs cfg env [r1, r2] = .ok res → res.length = 1 := by
  have key : ∀ pcs : List commit,
      resolveArgs cfg env pcs [r1, r2] [] [] = resolveArgs cfg env pcs [r1] [] [] ∧
      (∀ res, resolveArgs cfg env pcs [r1] [] [] = .ok res → res.length = 1) := by
    intro pcs
    cases hf : pcs.find? (fun pc => c1.hash = pc.hash) with
    | none =>
      refine ⟨by simp [resolveArgs, h1, hf], ?_⟩
      intro res hres
      simp [resolveArgs, h1, hf] at hres
    | some pc =>
      cases ha : addRevision cfg env pc with
      | error e =>
        refine ⟨by simp [resolveArgs, h1, hf, ha], ?_⟩
        intro res hres
        simp [resolveArgs, h1, hf, ha] at hres
      | ok r =>
        refine ⟨by simp [resolveArgs, h1, h2, hf, ha, hh], ?_⟩
        intro res hres
        simp [resolveArgs, h1, hf, ha] at hres
        simp [← hres]
  cases hbp : env.branchpoint with
  | error e =>
    refine ⟨by simp [deriveChangeIDs, hbp], ?_⟩
    intro res hres
    simp [deriveChangeIDs, hbp] at hres
  | ok bp =>
    cases hres : resolveCommits env [strTrimSpace bp ++ "..HEAD"] with
    | error e =>
      refine ⟨by simp [deriveChangeIDs, hbp, hres], ?_⟩
      intro res h
      simp [deriveChangeIDs, hbp, hres] at h
    | ok pcs =>
      by_cases hlen : pcs.length = 0
      · refine ⟨by simp [deriveChangeIDs, hbp, hres, hlen], ?_⟩
        intro res h
        simp [deriveChangeIDs, hbp, hres, hlen] at h
      · have e2 : deriveChangeIDs cfg env [r1, r2] = resolveArgs cfg env pcs [r1, r2] [] [] := by
          simp [deriveChangeIDs, hbp, hres, hlen, Ne.symm hn1, Ne.symm hn2]
        have e1 : deriveChangeIDs cfg env [r1] = resolveArgs cfg env pcs [r1] [] [] := by
          simp [deriveChangeIDs, hbp, hres, hlen, Ne.symm hn1]
        refine ⟨by rw [e2, e1, (key pcs).1], ?_⟩
        intro res h
        rw [e2, (key pcs).1] at h
        exact (key pcs).2 res h

/-- Witness for C6: passing two references that resolve to the same commit
gives the same result as passing the first alone, one revision in total. -/
theorem derived_dedup_witness :
    deriveChangeIDs ⟨"o", "r"⟩ c6env ["ref1", "ref2"] =
      deriveChangeIDs ⟨"o", "r"⟩ c6env ["ref1"] ∧
    deriveChangeIDs ⟨"o", "r"⟩ c6env ["ref1", "ref2"] =
      .ok [{ changeID := "Iaaa", revision := "h1" }] ∧
    ([{ changeID := "Iaaa", revision := "h1" }] : List revision).length = 1 :=
  ⟨(derived_dedup ⟨"o", "r"⟩ c6env "ref1" "ref2"
      ⟨"h1", "subject\n\nChange-Id: Iaaa"⟩ ⟨"h1", "subject\n\nChange-Id: Iaaa"⟩
      (by decide) (by decide) rfl (by decide) (by decide)).1.trans (by decide),
   by decide,
   (derived_dedup ⟨"o", "r"⟩ c6env "ref1" "ref2"
      ⟨"h1", "subject\n\nChange-Id: Iaaa"⟩ ⟨"h1", "subject\n\nChange-Id: Iaaa"⟩
      (by decide) (by decide) rfl (by decide) (by decide)).2
      [{ changeID := "Iaaa", revision := "h1" }] (by decide)⟩

/-! ### C3 — resolution-result invariant -/

/-- Counterexample to C3 as stated: explicit mode does not de-duplicate its
arguments, so passing the same change number twice emits two identical
(changeIdentifier, revisionHash) pairs. -/
theorem resolution_invariant_counterexample :
    cltriggerResolve ⟨"o", "r"⟩ env0 ["12345", "12345"] =
      .ok [{ changeID := "12345", revision := "" },
           { changeID := "12345", revision := "" }] ∧
    ¬ ([{ changeID := "12345", revision := "" },
        { changeID := "12345", revision := "" }] : List revision).Pairwise
        (fun a b => (a.changeID, a.revision) ≠ (b.changeID, b.revision)) := by
  refine ⟨by decide, ?_⟩
  intro hpw
  rcases List.pairwise_cons.mp hpw with ⟨hhead, _⟩
  exact hhead _ (List.mem_singleton.mpr rfl) rfl

/-- The addRevision closure always stamps the pending commit hash into the
emitted revision. -/
theorem addRevision_hash (cfg : config) (env : Env) (pc : commit) (r : revision)
    (h : addRevision cfg env pc = .ok r) : r.revision = pc.hash := by
  unfold addRevision at h
  cases hg : getChangeIDFromCommitMsg pc.body with
  | error e =>
    rw [hg] at h
    exact absurd h (by simp)
  | ok rawID =>
    rw [hg] at h
    dsimp only at h
    simp only [Except.ok.injEq] at h
    rw [← h]

/-- The verify-all loop stamps exactly the pending hashes, in order. -/
theorem addRevisionAll_hashes (cfg : config) (env : Env) :
    ∀ (pcs : List commit) (rs : List revision),
      addRevisionAll cfg env pcs = .ok rs →
      rs.map revision.revision = pcs.map commit.hash := by
  intro pcs
  induction pcs with
  | nil =>
    intro rs h
    simp [addRevisionAll] at h
    simp [← h]
  | cons pc rest ih =>
    intro rs h
    unfold addRevisionAll at h
    cases ha : addRevision cfg env pc with
    | error e =>
      rw [ha] at h
      exact absurd h (by simp)
    | ok r =>
      rw [ha] at h
      dsimp only at h
      cases hrest : addRevisionAll cfg env rest with
      | error e =>
        rw [hrest] at h
        exact absurd h (by simp)
      | ok rs2 =>
        rw [hrest] at h
        simp only [Except.ok.injEq] at h
        rw [← h]
        simp only [List.map_cons]
        rw [addRevision_hash cfg env pc r ha, ih rs2 hrest]

/-- Every revision emitted by the argument loop extends the accumulator at
the end. -/
theorem resolveArgs_extends (cfg : config) (env : Env) (pcs : List commit) :
    ∀ (args seen : List String) (res out : List revision),
      resolveArgs cfg env pcs args seen res = .ok out →
      ∃ extra, out = res ++ extra := by
  intro args
  induction args with
  | nil =>
    intro seen res out h
    simp only [resolveArgs, Except.ok.injEq] at h
    exact ⟨[], by simp [← h]⟩
  | cons a rest ih =>
    intro seen res out h
    unfold resolveArgs at h
    cases hr : resolveCommits env ["-1", a] with
    | error e =>
      rw [hr] at h
      simp at h
    | ok commits =>
      rw [hr] at h
      dsimp only at h
      rcases commits with _ | ⟨c, _ | ⟨c2, tl⟩⟩
      · simp at h
      · dsimp only at h
        by_cases hseen : seen.contains c.hash = true
        · rw [if_pos hseen] at h
          exact ih seen res out h
        · rw [if_neg hseen] at h
          cases hf : pcs.find? (fun pc => c.hash = pc.hash) with
          | none =>
            rw [hf] at h
            simp at h
          | some pc =>
            rw [hf] at h
            dsimp only at h
            cases ha : addRevision cfg env pc with
            | error e =>
              rw [ha] at h
              simp at h
            | ok r =>
              rw [ha] at h
              dsimp only at h
              obtain ⟨extra, hx⟩ := ih (c.hash :: seen) (res ++ [r]) out h
              exact ⟨r :: extra, by simp [hx]⟩
      · simp at h

/-- A successful argument loop starting from empty accumulators on a
non-empty argument list emits at least one revision. -/
theorem resolveArgs_ne_nil (cfg : config) (env : Env) (pcs : List commit)
    (a : String) (rest : List String) (out : List revision)
    (h : resolveArgs cfg env pcs (a :: rest) [] [] = .ok out) : out ≠ [] := by
  unfold resolveArgs at h
  cases hr : resolveCommits env ["-1", a] with
  | error e =>
    rw [hr] at h
    simp at h
  | ok commits =>
    rw [hr] at h
    dsimp only at h
    rcases commits with _ | ⟨c, _ | ⟨c2, tl⟩⟩
    · simp at h
    · dsimp only at h
      rw [if_neg (by simp)] at h
      cases hf : pcs.find? (fun pc => c.hash = pc.hash) with
      | none =>
        rw [hf] at h
        simp at h
      | some pc =>
        rw [hf] at h
        dsimp only at h
        cases ha : addRevision cfg env pc with
        | error e =>
          rw [ha] at h
          simp at h
        | ok r =>
          rw [ha] at h
          dsimp only at h
          obtain ⟨extra, hx⟩ := resolveArgs_extends cfg env pcs rest (c.hash :: [])
            ([] ++ [r]) out h
          rw [hx]
          simp
    · simp at h

/-- The argument loop preserves the invariant that emitted revision hashes
lie in the seen set and are pairwise distinct. -/
theorem resolveArgs_nodup (cfg : config) (env : Env) (pcs : List commit) :
    ∀ (args seen : List String) (res out : List revision),
      resolveArgs cfg env pcs args seen res = .ok out →
      (∀ r ∈ res, r.revision ∈ seen) →
      (res.map revision.revision).Nodup →
      (out.map revision.revision).Nodup := by
  intro args
  induction args with
  | nil =>
    intro seen res out h hsub hnd
    simp only [resolveArgs, Except.ok.injEq] at h
    rw [← h]
    exact hnd
  | cons a rest ih =>
    intro seen res out h hsub hnd
    unfold resolveArgs at h
    cases hr : resolveCommits env ["-1", a] with
    | error e =>
      rw [hr] at h
      simp at h
    | ok commits =>
      rw [hr] at h
      dsimp only at h
      rcases commits with _ | ⟨c, _ | ⟨c2, tl⟩⟩
      · simp at h
      · dsimp only at h
        by_cases hseen : seen.contains c.hash = true
        · rw [if_pos hseen] at h
          exact ih seen res out h hsub hnd
        · rw [if_neg hseen] at h
          cases hf : pcs.find? (fun pc => c.hash = pc.hash) with
          | none =>
            rw [hf] at h
            simp at h
          | some pc =>
            rw [hf] at h
            dsimp only at h
            cases ha : addRevision cfg env pc with
            | error e =>
              rw [ha] at h
              simp at h
            | ok r =>
              rw [ha] at h
              dsimp only at h
              have hchash : c.hash = pc.hash := by
                have := List.find?_some hf
                exact of_decide_eq_true this
              have hrh : r.revision = pc.hash := addRevision_hash cfg env pc r ha
              have hmem : c.hash ∉ seen := by
                simpa using hseen
              apply ih (c.hash :: seen) (res ++ [r]) out h
              · intro x hx
                rcases List.mem_append.mp hx with hx | hx
                · exact List.mem_cons_of_mem _ (hsub x hx)
                · rw [List.mem_singleton.mp hx, hrh, ← hchash]
                  exact List.mem_cons_self _ _
              · rw [List.map_append, List.nodup_append]
                refine ⟨hnd, by simp, ?_⟩
                intro x hx hx2
                simp only [List.map_cons, List.map_nil, List.mem_singleton] at hx2
                obtain ⟨y, hy, hyx⟩ := List.mem_map.mp hx
                apply hmem
                rw [← hchash] at hrh
                rw [hx2, hrh] at hyx
                rw [← hyx]
                exact hsub y hy
      · simp at h

/-- A successful derived-mode resolution is never empty. -/
theorem deriveChangeIDs_ok_ne_nil (cfg : config) (env : Env) (args : List String)
    (res : List revision) (h : deriveChangeIDs cfg env args = .ok res) : res ≠ [] := by
  unfold deriveChangeIDs at h
  cases hbp : env.branchpoint with
  | error e =>
    rw [hbp] at h
    simp at h
  | ok bp =>
    rw [hbp] at h
    dsimp only at h
    cases hres : resolveCommits env [strTrimSpace bp ++ "..HEAD"] with
    | error e =>
      rw [hres] at h
      simp at h
    | ok pcs =>
      rw [hres] at h
      dsimp only at h
      split at h
      · simp at h
      next h0 =>
        split at h
        · simp at h
        next hc1 =>
          split at h
          · simp at h
          next hc2 =>
            split at h
            next hc3 =>
              intro hnil
              subst hnil
              have hm := addRevisionAll_hashes cfg env pcs [] h
              apply h0
              simpa using congrArg List.length hm.symm
            next hc3 =>
              cases args with
              | nil =>
                exfalso
                simp at hc2 hc3
                omega
              | cons a rest =>
                exact resolveArgs_ne_nil cfg env pcs a rest res h

/-- When the pending commits have pairwise-distinct hashes, a successful
derived-mode resolution emits pairwise-distinct revision hashes. -/
theorem deriveChangeIDs_ok_nodup (cfg : config) (env : Env) (args : List String)
    (bp : String) (pcs : List commit) (res : List revision)
    (hbp : env.branchpoint = .ok bp)
    (hres : resolveCommits env [strTrimSpace bp ++ "..HEAD"] = .ok pcs)
    (hnd : (pcs.map commit.hash).Nodup)
    (h : deriveChangeIDs cfg env args = .ok res) :
    (res.map revision.revision).Nodup := by
  unfold deriveChangeIDs at h
  rw [hbp] at h
  dsimp only at h
  rw [hres] at h
  dsimp only at h
  split at h
  · simp at h
  · split at h
    · simp at h
    · split at h
      · simp at h
      · split at h
        · rw [addRevisionAll_hashes cfg env pcs res h]
          exact hnd
        · exact resolveArgs_nodup cfg env pcs args [] [] res h (by simp) (by simp)

/-- C3 amended: a successful resolution result is never empty, in explicit
mode as in derived mode; and in derived mode, whenever the pending commits
listed by the history reader have pairwise-distinct hashes, the emitted
revisions are pairwise distinct by (changeIdentifier, revisionHash).
Explicit mode, by contrast, passes repeated identifier arguments through
without de-duplication, so there distinctness holds only for distinct
arguments. -/
theorem resolution_invariant_amended :
    (∀ (cfg : config) (env : Env) (args : List String) (res : List revision),
        cltriggerResolve cfg env args = .ok res → res ≠ []) ∧
    (∀ (cfg : config) (env : Env) (args : List String) (bp : String)
        (pcs : List commit) (res : List revision),
        env.branchpoint = .ok bp →
        resolveCommits env [strTrimSpace bp ++ "..HEAD"] = .ok pcs →
        (pcs.map commit.hash).Nodup →
        deriveChangeIDs cfg env args = .ok res →
        (res.map fun r => (r.changeID, r.revision)).Nodup) := by
  constructor
  · intro cfg env args res h
    unfold cltriggerResolve at h
    cases hc : classifyArgs args true with
    | error e =>
      rw [hc] at h
      simp at h
    | ok d =>
      rw [hc] at h
      dsimp only at h
      cases d with
      | true =>
        rw [if_pos rfl] at h
        exact deriveChangeIDs_ok_ne_nil cfg env args res h
      | false =>
        rw [if_neg (by simp)] at h
        split at h
        · simp at h
        next hlen =>
          simp only [Except.ok.injEq] at h
          rw [← h]
          intro hnil
          exact hlen (by simp [List.map_eq_nil_iff.mp hnil])
  · intro cfg env args bp pcs res hbp hres hnd h
    have h2 := deriveChangeIDs_ok_nodup cfg env args bp pcs res hbp hres hnd h
    have h3 : ((res.map fun r => (r.changeID, r.revision)).map Prod.snd).Nodup := by
      simpa [List.map_map, Function.comp] using h2
    exact List.Nodup.of_map Prod.snd h3

/-- Witness for the amended C3: a concrete explicit resolution is
non-empty, and a concrete derived resolution over two distinct pending
commits yields pairwise-distinct (changeIdentifier, revisionHash) pairs. -/
theorem resolution_invariant_amended_witness :
    ([{ changeID := "12345", revision := "" }] : List revision) ≠ [] ∧
    (([{ changeID := "Iaaa", revision := "h1" },
        { changeID := "Ibbb", revision := "h2" }] : List revision).map
      fun r => (r.changeID, r.revision)).Nodup :=
  ⟨resolution_invariant_amended.1 ⟨"o", "r"⟩ env0 ["12345"]
      [{ changeID := "12345", revision := "" }] (by decide),
   resolution_invariant_amended.2 ⟨"o", "r"⟩ c6env ["HEAD"] "bp"
      [⟨"h1", "subject\n\nChange-Id: Iaaa"⟩, ⟨"h2", "other\n\nChange-Id: Ibbb"⟩]
      [{ changeID := "Iaaa", revision := "h1" },
       { changeID := "Ibbb", revision := "h2" }]
      rfl (by decide) (by decide) (by decide)⟩
